import Mathlib

/-!
Verification of the notebook rendering pipeline of the `justmytwospence/blog`
repository.  The TypeScript sources under `src/lib/notebook` and
`src/components/notebook` are shallowly embedded below: pure functions become
Lean functions, JavaScript strings become Lean `String`, arrays become `List`,
optional record fields become `Option`, and throwing validators become
`Except String`.  JavaScript builtins consumed by the code (string `split`,
`trim`, `parseFloat`, `Array.prototype.sort`, number printing) are modelled by
explicit structural Lean functions on `List Char`, documented at each site.
-/

set_option maxHeartbeats 1000000

namespace Blog

/-! ## JavaScript string primitives

The embedded code manipulates JavaScript strings via a handful of builtins.
We model a string as the Lean `String` it denotes and implement the builtins
structurally over `String.data` so that all definitions compute by kernel
reduction.  The whitespace class is the ASCII core of the JavaScript `\s`
regular-expression class (the sources only ever meet ASCII whitespace). -/

/-- Whitespace test matching the ASCII part of the JavaScript `\s` class. -/
def isWs (c : Char) : Bool :=
  c = ' ' || c = '\t' || c = '\n' || c = '\r' || c = '\x0b' || c = '\x0c'

/-- Model of `String.prototype.trim`: drop whitespace at both ends. -/
def jsTrim (s : String) : String :=
  ⟨((s.data.dropWhile isWs).reverse.dropWhile isWs).reverse⟩

/-- Split a character list at every occurrence of `c`, the model of
`String.prototype.split` with a single-character separator. -/
def splitOnChar (c : Char) : List Char → List (List Char)
  | [] => [[]]
  | x :: xs =>
    match splitOnChar c xs with
    | [] => [[]]
    | g :: gs => if x = c then [] :: g :: gs else (x :: g) :: gs

/-- Model of `Array.prototype.join` with a separator. -/
def joinSep (sep : String) : List String → String
  | [] => ""
  | [x] => x
  | x :: y :: xs => x ++ sep ++ joinSep sep (y :: xs)

/-- Test for the JavaScript word-character class `\w`, that is `[A-Za-z0-9_]`. -/
def isWordChar (c : Char) : Bool :=
  ('a' ≤ c && c ≤ 'z') || ('A' ≤ c && c ≤ 'Z') || ('0' ≤ c && c ≤ '9') || c = '_'

/-! ## Decimal printing

`generateCellId` and the table-of-contents anchor ids interpolate a cell
index into a template string; JavaScript prints a non-negative integer in
decimal, which is exactly `Nat.repr`.  The lemmas below characterise
`Nat.repr` as a list of digit characters and prove it injective, which the
claims about id stability need. -/

/-- Decimal digit list of a natural number, most significant digit first. -/
def natDigits (n : Nat) : List Char :=
  if _h : n < 10 then [Nat.digitChar n]
  else natDigits (n / 10) ++ [Nat.digitChar (n % 10)]
termination_by n
decreasing_by exact Nat.div_lt_self (by omega) (by omega)

theorem natDigits_ne_nil (n : Nat) : natDigits n ≠ [] := by
  rw [natDigits]
  split <;> simp

theorem toDigitsCore_eq_natDigits :
    ∀ fuel n ds, n < fuel → Nat.toDigitsCore 10 fuel n ds = natDigits n ++ ds := by
  intro fuel
  induction fuel with
  | zero => intro n ds h; omega
  | succ f ih =>
    intro n ds h
    simp only [Nat.toDigitsCore]
    by_cases h10 : n < 10
    · have hz : n / 10 = 0 := Nat.div_eq_of_lt h10
      have hm : n % 10 = n := Nat.mod_eq_of_lt h10
      simp [hz, hm, natDigits, h10]
    · have hz : n / 10 ≠ 0 := by
        intro hzero
        have := (Nat.div_eq_zero_iff (by omega : 0 < 10)).1 hzero
        omega
      have hlt : n / 10 < f := by
        have h1 : n / 10 < n := Nat.div_lt_self (by omega) (by omega)
        omega
      simp only [hz, if_false]
      rw [ih (n / 10) _ hlt]
      conv_rhs => rw [natDigits]
      simp [h10]

theorem natRepr_eq_natDigits (n : Nat) : Nat.repr n = (natDigits n).asString := by
  have := toDigitsCore_eq_natDigits (n + 1) n [] (by omega)
  simp [Nat.repr, Nat.toDigits, this]

/-- Numeric value of a digit character. -/
def digitVal (c : Char) : Nat := c.toNat - 48

theorem digitVal_digitChar {d : Nat} (h : d < 10) :
    digitVal (Nat.digitChar d) = d := by
  interval_cases d <;> rfl

theorem digitChar_isDigit {d : Nat} (h : d < 10) :
    (Nat.digitChar d).isDigit = true := by
  interval_cases d <;> rfl

theorem natDigits_all_digits (n : Nat) : ∀ c ∈ natDigits n, c.isDigit = true := by
  induction n using Nat.strong_induction_on with
  | _ n ih =>
    rw [natDigits]
    split
    · next h => simpa using digitChar_isDigit h
    · next h =>
      intro c hc
      rcases List.mem_append.1 hc with h1 | h2
      · exact ih (n / 10) (Nat.div_lt_self (by omega) (by omega)) c h1
      · simp only [List.mem_singleton] at h2
        subst h2
        exact digitChar_isDigit (Nat.mod_lt _ (by omega))

/-- Read a digit list back into a natural number, with accumulator. -/
def decValue (a : Nat) (l : List Char) : Nat :=
  l.foldl (fun acc c => acc * 10 + digitVal c) a

theorem decValue_natDigits :
    ∀ n a, decValue a (natDigits n) = a * 10 ^ (natDigits n).length + n := by
  intro n
  induction n using Nat.strong_induction_on with
  | _ n ih =>
    intro a
    rw [natDigits]
    split
    · next h =>
      simp [decValue, digitVal_digitChar h]
    · next h =>
      have hlt : n / 10 < n := Nat.div_lt_self (by omega) (by omega)
      simp only [decValue, List.foldl_append, List.foldl_cons, List.foldl_nil,
        List.length_append, List.length_cons, List.length_nil]
      have := ih (n / 10) hlt a
      simp only [decValue] at this
      rw [this, digitVal_digitChar (Nat.mod_lt _ (by omega))]
      have hsplit : n = 10 * (n / 10) + n % 10 := (Nat.div_add_mod n 10).symm
      ring_nf
      omega

theorem natDigits_injective : Function.Injective natDigits := by
  intro x y h
  have hx := decValue_natDigits x 0
  have hy := decValue_natDigits y 0
  rw [h] at hx
  omega

theorem natRepr_injective : Function.Injective Nat.repr := by
  intro x y h
  rw [natRepr_eq_natDigits, natRepr_eq_natDigits] at h
  exact natDigits_injective (by
    have := congrArg String.data h
    simpa [List.asString] using this)

/-! ## Data model (src/lib/notebook/types.ts)

TypeScript union types become inductives, interfaces become structures, and
optional fields become `Option`.  The `include` directive is spelled `incl`
and hyphenated keys are camel-cased (`code-fold` is `codeFold`, and so on). -/

/-- Cell variants: `code`, `markdown`, `raw`. -/
inductive CellType where
  | code
  | markdown
  | raw
deriving DecidableEq, Repr

/-- Cell source: a single string or an array of line fragments. -/
inductive CellSource where
  | str (s : String)
  | arr (l : List String)
deriving DecidableEq, Repr

/-- Value of the `echo` directive: a boolean or the string `fenced`. -/
inductive EchoOpt where
  | ofBool (b : Bool)
  | fenced
deriving DecidableEq, Repr

/-- Value of the `output` directive: a boolean or the string `asis`. -/
inductive OutputOpt where
  | ofBool (b : Bool)
  | asis
deriving DecidableEq, Repr

/-- Value of the `code-fold` directive: a boolean, `show` or `hide`. -/
inductive CodeFold where
  | foldBool (b : Bool)
  | foldShow
  | foldHide
deriving DecidableEq, Repr

/-- Quarto cell options (interface `QuartoCellOptions`). -/
structure QuartoCellOptions where
  echo : Option EchoOpt := none
  output : Option OutputOpt := none
  warning : Option Bool := none
  error : Option Bool := none
  incl : Option Bool := none
  codeFold : Option CodeFold := none
  codeSummary : Option String := none
  codeLineNumbers : Option Bool := none
  figCap : Option String := none
  figAlt : Option String := none
  figWidth : Option Int := none
  figHeight : Option Int := none
  label : Option String := none
deriving DecidableEq, Repr

/-- The `globalOptions` record handed to every code cell
(interface `CodeCellProps` in CodeCell.tsx). -/
structure GlobalOptions where
  echo : Option Bool := none
  output : Option Bool := none
  incl : Option Bool := none
  warning : Option Bool := none
  error : Option Bool := none
  codeLineNumbers : Option Bool := none
deriving DecidableEq, Repr

/-- A JavaScript value that is either a string or an array of strings. -/
inductive JsStrVal where
  | str (s : String)
  | arr (l : List String)
deriving DecidableEq, Repr

/-- MIME bundle of a display output.  The renderer consults the keys listed
here; further keys play no role in any embedded operation. -/
structure MimeBundle where
  textHtml : Option JsStrVal := none
  textPlain : Option JsStrVal := none
  imagePng : Option String := none
  applicationJson : Option String := none
deriving DecidableEq, Repr

/-- Cell output union (`stream`, `display_data`, `execute_result`, `error`).
The `data` field is optional, mirroring the defensive `output.data?.` access
in OutputRenderer.tsx. -/
inductive CellOutput where
  | stream (name : String) (text : JsStrVal)
  | displayData (data : Option MimeBundle)
  | executeResult (data : Option MimeBundle)
  | errorOutput (ename evalue : String) (traceback : List String)
deriving DecidableEq, Repr

/-- Notebook cell.  The `metadata` bag is modelled by the record of Quarto
keys that `getCellOptions` extracts from it; unknown keys are consulted
nowhere in the embedded code. -/
structure NotebookCell where
  cell_type : CellType
  source : CellSource
  metadata : Option QuartoCellOptions := none
  outputs : Option (List CellOutput) := none
  execution_count : Option (Option Int) := none
  id : Option String := none
deriving DecidableEq, Repr

/-- Notebook root.  Only the cell sequence is consulted by the embedded
operations on typed notebooks; the structural `nbformat`/`metadata` checks
operate on the untyped `Json` model further below. -/
structure Notebook where
  cells : List NotebookCell
deriving DecidableEq, Repr

/-! ## Cell helpers (src/lib/notebook/utils.ts) -/

/-- Extract cell source as a single string (utils.ts `getCellSource`).
For a string source the JavaScript falsiness guard returns the empty string
exactly when the source is the empty string, which coincides with returning
the source itself; an array source is concatenated with `join("")`. -/
def getCellSource (cell : NotebookCell) : String :=
  match cell.source with
  | .str s => s
  | .arr l => String.join l

/-- String value of a cell type, as interpolated by template strings. -/
def cellTypeStr : CellType → String
  | .code => "code"
  | .markdown => "markdown"
  | .raw => "raw"

/-- Generate a stable cell id (utils.ts `generateCellId`).  The JavaScript
guard `if (cell.id)` is a truthiness test, so an empty-string id falls
through to the synthesized id. -/
def generateCellId (cell : NotebookCell) (index : Nat) : String :=
  match cell.id with
  | some s =>
    if s = "" then "cell-" ++ cellTypeStr cell.cell_type ++ "-" ++ Nat.repr index else s
  | none => "cell-" ++ cellTypeStr cell.cell_type ++ "-" ++ Nat.repr index

/-- Extract Quarto cell options from cell metadata (utils.ts
`getCellOptions`): copy the recognized keys, or return the empty record when
the metadata bag is absent. -/
def getCellOptions (cell : NotebookCell) : QuartoCellOptions :=
  match cell.metadata with
  | some m => m
  | none => {}

/-! ## Table of contents builder (utils.ts `generateTableOfContents`)

The source walks markdown cells line by line, matches the heading pattern
`^(#{1,6})\s+(.+)$`, and maintains a mutable stack whose entries are attached
to their parents in place.  Functionally we keep a stack of open frames and
attach each entry to its parent (or to the root list) at the moment it is
popped, flushing the remaining open frames at the end; this produces the same
tree because frames below the top never change while the top is open. -/

/-- Hierarchical table-of-contents entry (interface `TocEntry`). -/
inductive TocEntry where
  | mk (id : String) (level : Nat) (text : String) (children : List TocEntry)

/-- Heading level of an entry. -/
def TocEntry.level : TocEntry → Nat
  | .mk _ l _ _ => l

/-- Anchor id of an entry. -/
def TocEntry.entryId : TocEntry → String
  | .mk i _ _ _ => i

/-- Display text of an entry. -/
def TocEntry.text : TocEntry → String
  | .mk _ _ t _ => t

/-- Children of an entry. -/
def TocEntry.children : TocEntry → List TocEntry
  | .mk _ _ _ c => c

/-- An open entry on the builder stack: the entry fields plus the children
collected so far. -/
structure TocFrame where
  id : String
  level : Nat
  text : String
  children : List TocEntry

/-- Close an open frame into a finished entry. -/
def closeFrame (f : TocFrame) : TocEntry :=
  .mk f.id f.level f.text f.children

/-- Pop the stack while the top level is at least `lvl` (the while loop of
`generateTableOfContents`), with `f` the current top and the remaining stack
as the recursion argument.  A popped frame is attached to the next frame down
or, when none exists, appended to the root list `toc`. -/
def popWhileAux (lvl : Nat) (toc : List TocEntry) (f : TocFrame) :
    List TocFrame → List TocEntry × List TocFrame
  | [] => if lvl ≤ f.level then (toc ++ [closeFrame f], []) else (toc, [f])
  | g :: rest =>
    if lvl ≤ f.level then
      popWhileAux lvl toc { g with children := g.children ++ [closeFrame f] } rest
    else (toc, f :: g :: rest)

/-- Pop the stack while the top level is at least `lvl`. -/
def popStack (lvl : Nat) (toc : List TocEntry) :
    List TocFrame → List TocEntry × List TocFrame
  | [] => (toc, [])
  | f :: rest => popWhileAux lvl toc f rest

/-- Slugified heading text: lowercase, strip characters outside `[\w\s-]`,
then replace each whitespace run by a single hyphen.  Helper replacing a
whitespace run, tracking whether the previous character was whitespace. -/
def collapseWsAux : Bool → List Char → List Char
  | _, [] => []
  | inRun, c :: rest =>
    if isWs c then
      (if inRun then [] else ['-']) ++ collapseWsAux true rest
    else c :: collapseWsAux false rest

/-- Slugify heading text as in the anchor-id template of utils.ts. -/
def slugify (text : String) : String :=
  ⟨collapseWsAux false ((text.data.map Char.toLower).filter
    fun c => isWordChar c || isWs c || c = '-')⟩

/-- Anchor id template `heading-<cellIndex>-<slug>`. -/
def headingId (cellIndex : Nat) (text : String) : String :=
  "heading-" ++ Nat.repr cellIndex ++ "-" ++ slugify text

/-- Match one line against the heading pattern `^(#{1,6})\s+(.+)$`, returning
the level and the trimmed heading text.  The pattern matches exactly when the
leading run of `#` has length 1 to 6 and is followed by a whitespace
character plus at least one further character, and the trimmed capture of
`(.+)` equals the trimmed remainder after the `#` run. -/
def parseHeading (line : List Char) : Option (Nat × String) :=
  let k := (line.takeWhile fun c => c = '#').length
  let rest := line.dropWhile fun c => c = '#'
  if 1 ≤ k ∧ k ≤ 6 then
    match rest with
    | c1 :: _ :: _ => if isWs c1 then some (k, jsTrim ⟨rest⟩) else none
    | _ => none
  else none

/-- Process one source line of a markdown cell. -/
def tocLineStep (cellIndex : Nat) (st : List TocEntry × List TocFrame)
    (line : List Char) : List TocEntry × List TocFrame :=
  match parseHeading line with
  | none => st
  | some (lvl, text) =>
    let r := popStack lvl st.1 st.2
    (r.1, ⟨headingId cellIndex text, lvl, text, []⟩ :: r.2)

/-- Generate the table of contents of a notebook (utils.ts
`generateTableOfContents`): fold the heading lines of the markdown cells
through the stack machine, then flush the remaining open frames (level 0 pops
everything). -/
def generateTableOfContents (nb : Notebook) : List TocEntry :=
  let st := nb.cells.enum.foldl
    (fun st p =>
      if p.2.cell_type = CellType.markdown then
        (splitOnChar '\n' (getCellSource p.2).data).foldl (tocLineStep p.1) st
      else st)
    ([], [])
  (popStack 0 st.1 st.2).1

/-! ## Visibility resolution (CodeCell.tsx) -/

/-- Initial code visibility (CodeCell.tsx `determineInitialCodeVisibility`):
cell `echo === false`, then `code-fold === "hide"`, then `code-fold` equal to
`"show"` or `true`, then global `echo === false`, then visible. -/
def determineInitialCodeVisibility (cellOptions : QuartoCellOptions)
    (globalOptions : GlobalOptions) : Bool :=
  if cellOptions.echo = some (.ofBool false) then false
  else if cellOptions.codeFold = some .foldHide then false
  else if cellOptions.codeFold = some .foldShow
      || cellOptions.codeFold = some (.foldBool true) then true
  else if globalOptions.echo = some false then false
  else true

/-- Initial output visibility (CodeCell.tsx
`determineInitialOutputVisibility`). -/
def determineInitialOutputVisibility (cellOptions : QuartoCellOptions)
    (globalOptions : GlobalOptions) : Bool :=
  if cellOptions.output = some (.ofBool false) then false
  else if globalOptions.output = some false then false
  else true

/-- Line-number visibility (CodeCell.tsx `determineShowLineNumbers`). -/
def determineShowLineNumbers (cellOptions : QuartoCellOptions)
    (globalOptions : GlobalOptions) : Bool :=
  match cellOptions.codeLineNumbers with
  | some b => b
  | none =>
    match globalOptions.codeLineNumbers with
    | some b => b
    | none => false

/-! ## Output filtering and merging (OutputRenderer.tsx) -/

/-- Three-tier cascade for a boolean directive: explicit cell option, then
explicit global option, then the hard-coded default (the conditional
expressions at OutputRenderer.tsx lines 52 and 53). -/
def resolveCascade (cellVal globalVal : Option Bool) (dflt : Bool) : Bool :=
  match cellVal with
  | some b => b
  | none =>
    match globalVal with
    | some b => b
    | none => dflt

/-- Whether an output is a `stream` output named `stderr`. -/
def isStderrStream : CellOutput → Bool
  | .stream name _ => name = "stderr"
  | _ => false

/-- Whether an output is a `stream` output named `stdout`. -/
def isStdoutStream : CellOutput → Bool
  | .stream name _ => name = "stdout"
  | _ => false

/-- Whether an output has type `error`. -/
def isErrorType : CellOutput → Bool
  | .errorOutput _ _ _ => true
  | _ => false

/-- Filter outputs by the `warning` and `error` cascades (OutputRenderer.tsx
lines 51 to 79): drop `stderr` streams when warnings are suppressed and drop
`error` outputs when errors are suppressed. -/
def filterOutputs (cellOptions : QuartoCellOptions) (globalOptions : GlobalOptions)
    (outputs : List CellOutput) : List CellOutput :=
  let shouldShowWarnings := resolveCascade cellOptions.warning globalOptions.warning true
  let shouldShowErrors := resolveCascade cellOptions.error globalOptions.error true
  outputs.filter fun output =>
    if !shouldShowWarnings && isStderrStream output then false
    else if !shouldShowErrors && isErrorType output then false
    else true

/-- The `text/html` entry of the data bundle of a display output, when the
output is `display_data` or `execute_result` (`output.data?.["text/html"]`,
`undefined` otherwise). -/
def htmlOf : CellOutput → Option JsStrVal
  | .displayData (some d) => d.textHtml
  | .executeResult (some d) => d.textHtml
  | _ => none

/-- JavaScript truthiness of the html payload: absent is falsy, an empty
string is falsy, every array (even empty) is truthy. -/
def truthyHtml : Option JsStrVal → Bool
  | none => false
  | some (.str s) => s ≠ ""
  | some (.arr _) => true

/-- The merge guard of OutputRenderer.tsx lines 89 to 98: the output is a
`display_data` or `execute_result` whose `text/html` payload is truthy. -/
def isHtmlOutput (o : CellOutput) : Bool :=
  truthyHtml (htmlOf o)

/-- Coerce a string-or-array payload to an array
(`Array.isArray(x) ? x : [x]`). -/
def toHtmlArr : JsStrVal → List String
  | .str s => [s]
  | .arr l => l

/-- Replace the html payload of the data bundle of a display output
(`{...output, data: {...output.data, "text/html": mergedHtml}}`). -/
def setHtml (o : CellOutput) (h : JsStrVal) : CellOutput :=
  match o with
  | .displayData (some d) => .displayData (some { d with textHtml := some h })
  | .executeResult (some d) => .executeResult (some { d with textHtml := some h })
  | o => o

/-- Merge two adjacent html outputs into one: the first output with its html
payload replaced by the concatenation of both payloads as arrays. -/
def mergeTwo (o1 o2 : CellOutput) : CellOutput :=
  setHtml o1 (.arr (((htmlOf o1).map toHtmlArr).getD [] ++ ((htmlOf o2).map toHtmlArr).getD []))

/-- Single left-to-right pass merging consecutive html outputs
(OutputRenderer.tsx lines 81 to 120): when the current output and its
successor are both html outputs the pair is replaced by the merged output and
the scan continues after both, otherwise the current output is kept. -/
def mergeHtmlOutputs : List CellOutput → List CellOutput
  | [] => []
  | [o] => [o]
  | o1 :: o2 :: rest =>
    if isHtmlOutput o1 && isHtmlOutput o2 then
      mergeTwo o1 o2 :: mergeHtmlOutputs rest
    else
      o1 :: mergeHtmlOutputs (o2 :: rest)

/-- The output list the renderer maps over: filter, then merge. -/
def renderedOutputs (cellOptions : QuartoCellOptions) (globalOptions : GlobalOptions)
    (outputs : List CellOutput) : List CellOutput :=
  mergeHtmlOutputs (filterOutputs cellOptions globalOptions outputs)

/-! ## Metadata extraction (utils.ts `extractMetadata` and friends)

The YAML front-matter parser (the external `gray-matter` package) is modelled
as a function argument `matterFn` mapping the cell source to either the
parsed mapping or a parse failure; the try/catch around `matter(source)`
becomes a `match` on the `Except`.  The parsed mapping is modelled by the
record of keys the extraction code reads, each field optional; Quarto
`format`/`execute` groups may sit under their key or at the mapping root, so
the root carries its own copy of both groups of fields. -/

/-- An author value: a single string or an array of strings. -/
inductive AuthorVal where
  | one (s : String)
  | many (l : List String)
deriving DecidableEq, Repr

/-- A categories value before normalization: a single string or an array. -/
inductive CatVal where
  | one (s : String)
  | many (l : List String)
deriving DecidableEq, Repr

/-- Quarto `format` fields as read from the parsed YAML mapping. -/
structure FormatFields where
  codeFold : Option CodeFold := none
  codeTools : Option Bool := none
  codeLineNumbers : Option Bool := none
  toc : Option Bool := none
  tocDepth : Option Int := none
  tocTitle : Option String := none
deriving DecidableEq, Repr

/-- Quarto `execute` fields as read from the parsed YAML mapping. -/
structure ExecFields where
  echo : Option Bool := none
  warning : Option Bool := none
  error : Option Bool := none
  output : Option Bool := none
  incl : Option Bool := none
deriving DecidableEq, Repr

/-- Parsed YAML front-matter mapping, restricted to the keys the extraction
code reads.  `format`/`execute` may appear nested or hoisted to the root. -/
structure YamlData where
  title : Option String := none
  author : Option AuthorVal := none
  date : Option String := none
  description : Option String := none
  categories : Option CatVal := none
  featured : Option Bool := none
  format : Option FormatFields := none
  execute : Option ExecFields := none
  rootFormat : FormatFields := {}
  rootExec : ExecFields := {}
deriving DecidableEq, Repr

/-- Partial metadata extracted from front matter (`Partial<ExtractedMetadata>`). -/
structure PartialMetadata where
  title : Option String := none
  author : Option AuthorVal := none
  date : Option String := none
  description : Option String := none
  categories : Option (List String) := none
  featured : Option Bool := none
  format : Option FormatFields := none
  execute : Option ExecFields := none
deriving DecidableEq, Repr

/-- Extracted metadata with all defaults filled in
(interface `ExtractedMetadata`). -/
structure ExtractedMetadata where
  title : String
  author : Option AuthorVal
  date : String
  description : String
  categories : List String
  featured : Bool
  format : FormatFields
  execute : ExecFields
deriving DecidableEq, Repr

/-- Does any field of a format group carry a value
(`Object.keys(format).length > 0`)? -/
def FormatFields.anySet (f : FormatFields) : Bool :=
  f.codeFold.isSome || f.codeTools.isSome || f.codeLineNumbers.isSome
    || f.toc.isSome || f.tocDepth.isSome || f.tocTitle.isSome

/-- Does any field of an execute group carry a value? -/
def ExecFields.anySet (e : ExecFields) : Bool :=
  e.echo.isSome || e.warning.isSome || e.error.isSome || e.output.isSome
    || e.incl.isSome

/-- Field extraction from a successfully parsed mapping (the body of the
`try` block of `parseQuartoFrontmatter`).  A string-valued key is copied
when truthy, `featured` when defined; `format`/`execute` read from the
nested group when present (`data.format || data`, a JavaScript object is
always truthy) and from the root otherwise. -/
def extractFields (data : YamlData) : PartialMetadata :=
  let fs := match data.format with
    | some f => f
    | none => data.rootFormat
  let es := match data.execute with
    | some e => e
    | none => data.rootExec
  { title := match data.title with
      | some t => if t = "" then none else some t
      | none => none
    author := match data.author with
      | some (.one s) => if s = "" then none else some (.one s)
      | some (.many l) => some (.many l)
      | none => none
    date := match data.date with
      | some d => if d = "" then none else some d
      | none => none
    description := match data.description with
      | some d => if d = "" then none else some d
      | none => none
    categories := match data.categories with
      | some (.one s) => if s = "" then none else some [s]
      | some (.many l) => some l
      | none => none
    featured := data.featured
    format := if fs.anySet then some fs else none
    execute := if es.anySet then some es else none }

/-- Does the trimmed source start with the front-matter delimiter `---`? -/
def startsWithFM (s : String) : Bool :=
  match (jsTrim s).data with
  | '-' :: '-' :: '-' :: _ => true
  | _ => false

/-- Parse Quarto front matter from the first cell (utils.ts
`parseQuartoFrontmatter`): only raw and markdown cells are considered, the
trimmed source must start with `---`, and a YAML parse failure yields `none`
(the catch branch). -/
def parseQuartoFrontmatter (matterFn : String → Except Unit YamlData)
    (cell : NotebookCell) : Option PartialMetadata :=
  if cell.cell_type ≠ CellType.raw ∧ cell.cell_type ≠ CellType.markdown then none
  else
    let source := match cell.source with
      | .arr l => String.join l
      | .str s => s
    if !startsWithFM source then none
    else
      match matterFn source with
      | .error _ => none
      | .ok data => some (extractFields data)

/-- Capitalize one slug word (`word.charAt(0).toUpperCase() + word.slice(1)`). -/
def capitalizeWord (w : List Char) : List Char :=
  match w with
  | [] => []
  | c :: rest => Char.toUpper c :: rest

/-- Default metadata (utils.ts `getDefaultMetadata`).  The current date read
from the clock is passed in as `today`. -/
def getDefaultMetadata (slug : String) (today : String) : ExtractedMetadata :=
  let slugStr := if slug = "" then "untitled" else slug
  let title := joinSep " "
    (((splitOnChar '-' slugStr.data).map capitalizeWord).map List.asString)
  { title := title
    author := none
    date := today
    description := ""
    categories := []
    featured := false
    format :=
      { codeFold := some (.foldBool false)
        codeTools := some false
        codeLineNumbers := some false
        toc := some true
        tocDepth := some 3
        tocTitle := some "Contents" }
    execute :=
      { echo := some true
        warning := some true
        error := some true
        output := some true
        incl := some true } }

/-- JavaScript `a || b` on an optional string against a default. -/
def jsOrStr (o : Option String) (dflt : String) : String :=
  match o with
  | some t => if t = "" then dflt else t
  | none => dflt

/-- Merge of format groups by object spread `{...defaults, ...partial}`. -/
def mergeFormat (d p : FormatFields) : FormatFields :=
  { codeFold := p.codeFold <|> d.codeFold
    codeTools := p.codeTools <|> d.codeTools
    codeLineNumbers := p.codeLineNumbers <|> d.codeLineNumbers
    toc := p.toc <|> d.toc
    tocDepth := p.tocDepth <|> d.tocDepth
    tocTitle := p.tocTitle <|> d.tocTitle }

/-- Merge of execute groups by object spread. -/
def mergeExec (d p : ExecFields) : ExecFields :=
  { echo := p.echo <|> d.echo
    warning := p.warning <|> d.warning
    error := p.error <|> d.error
    output := p.output <|> d.output
    incl := p.incl <|> d.incl }

/-- Extract metadata from a notebook (utils.ts `extractMetadata`): parse
front matter from the first raw or markdown cell and merge it with the
defaults; without front matter return the defaults unchanged. -/
def extractMetadata (matterFn : String → Except Unit YamlData) (nb : Notebook)
    (slug today : String) : ExtractedMetadata :=
  let frontmatterData := match nb.cells.head? with
    | some firstCell =>
      if firstCell.cell_type = CellType.raw ∨ firstCell.cell_type = CellType.markdown then
        parseQuartoFrontmatter matterFn firstCell
      else none
    | none => none
  let defaults := getDefaultMetadata slug today
  match frontmatterData with
  | none => defaults
  | some d =>
    { title := jsOrStr d.title defaults.title
      author := match d.author with
        | some (.one s) => if s = "" then defaults.author else some (.one s)
        | some (.many l) => some (.many l)
        | none => defaults.author
      date := jsOrStr d.date defaults.date
      description := jsOrStr d.description defaults.description
      categories := match d.categories with
        | some l => l
        | none => defaults.categories
      featured := match d.featured with
        | some b => b
        | none => defaults.featured
      format := mergeFormat defaults.format (d.format.getD {})
      execute := mergeExec defaults.execute (d.execute.getD {}) }

/-! ## Structural validation (utils.ts `validateNotebook`, `validateCell`,
`isValidNotebook`)

The validator receives untrusted parsed JSON, so it is embedded over an
explicit JSON value type.  JSON numbers are modelled as rationals (every
JSON numeral denotes one); the throwing `asserts` functions become
`Except String Unit`, a thrown `Error` becoming `Except.error` of its
message. -/

/-- Parsed JSON value. -/
inductive Json where
  | null
  | bool (b : Bool)
  | num (q : Rat)
  | str (s : String)
  | arr (elems : List Json)
  | obj (fields : List (String × Json))

/-- JavaScript `typeof x === "object"`: true for objects, arrays and null. -/
def jsTypeofObject : Json → Bool
  | .null => true
  | .arr _ => true
  | .obj _ => true
  | _ => false

/-- Test for the JSON null value. -/
def Json.isNull : Json → Bool
  | .null => true
  | _ => false

/-- Field lookup: the named key of an object (parsed JSON objects have
unique keys), absent on every other value, matching both the `in` test and
the member access of the source. -/
def jGet : Json → String → Option Json
  | .obj fields, key => fields.lookup key
  | _, _ => none

/-- Model of the number printing in the template string
`got ${nb.nbformat}`; only its presence in the message matters to the
claims. -/
def jsNumToString (q : Rat) : String :=
  toString q

/-- The leading object check of `validateNotebook`
(`typeof notebook !== "object" || notebook === null`). -/
def checkIsObject (j : Json) : Except String Unit :=
  if !jsTypeofObject j || j.isNull then .error "Notebook must be an object"
  else .ok ()

/-- The `nbformat` paragraph of `validateNotebook`: the field must exist, be
a number, and be at least 4. -/
def checkNbformat (j : Json) : Except String Unit :=
  match jGet j "nbformat" with
  | none => .error "Notebook is missing required field: nbformat"
  | some v =>
    match v with
    | .num q =>
      if q < 4 then
        .error ("Notebook nbformat must be 4 or greater, got " ++ jsNumToString q)
      else .ok ()
    | _ => .error "Notebook nbformat field must be a number"

/-- Validate one cell (utils.ts `validateCell`): object shape, `cell_type`
in the three variants, `source` a string or an array of strings, and for
code cells an array `outputs` and a number-or-null `execution_count` when
present. -/
def validateCell (cell : Json) (index : Nat) : Except String Unit := do
  if !jsTypeofObject cell || cell.isNull then
    throw ("Cell at index " ++ Nat.repr index ++ " must be an object")
  match jGet cell "cell_type" with
  | none =>
    throw ("Cell at index " ++ Nat.repr index ++ " is missing required field: cell_type")
  | some ct =>
    match ct with
    | .str s =>
      if s ≠ "code" ∧ s ≠ "markdown" ∧ s ≠ "raw" then
        throw ("Cell at index " ++ Nat.repr index ++ " has invalid cell_type: \"" ++ s
          ++ "\". Must be one of: code, markdown, raw")
      else
        match jGet cell "source" with
        | none =>
          throw ("Cell at index " ++ Nat.repr index ++ " is missing required field: source")
        | some src =>
          let isString := match src with
            | .str _ => true
            | _ => false
          let isStringArray := match src with
            | .arr items => items.all fun item =>
                match item with
                | .str _ => true
                | _ => false
            | _ => false
          if !isString && !isStringArray then
            throw ("Cell at index " ++ Nat.repr index
              ++ " has invalid source field: must be a string or an array of strings")
          else do
            if s = "code" then
              match jGet cell "outputs" with
              | some outs =>
                match outs with
                | .arr _ => pure ()
                | _ =>
                  throw ("Cell at index " ++ Nat.repr index
                    ++ " has invalid outputs field: must be an array")
              | none => pure ()
            if s = "code" then
              match jGet cell "execution_count" with
              | some ec =>
                match ec with
                | .null => pure ()
                | .num _ => pure ()
                | _ =>
                  throw ("Cell at index " ++ Nat.repr index
                    ++ " has invalid execution_count: must be a number or null")
              | none => pure ()
    | _ =>
      throw ("Cell at index " ++ Nat.repr index ++ " has invalid cell_type: must be a string")

/-- Validate every cell in order with its index (`forEach` over `cells`). -/
def validateCells (cells : List Json) (index : Nat) : Except String Unit :=
  match cells with
  | [] => .ok ()
  | c :: rest => do
    validateCell c index
    validateCells rest (index + 1)

/-- The `cells` paragraph of `validateNotebook`: the field must exist, be an
array, and every entry must validate. -/
def checkCells (j : Json) : Except String Unit :=
  match jGet j "cells" with
  | none => .error "Notebook is missing required field: cells"
  | some v =>
    match v with
    | .arr cells => validateCells cells 0
    | _ => .error "Notebook cells field must be an array"

/-- The optional `metadata` check of `validateNotebook`: when present and
not null it must be of object type. -/
def checkMetadataField (j : Json) : Except String Unit :=
  match jGet j "metadata" with
  | some m =>
    if !m.isNull && !jsTypeofObject m then
      .error "Notebook metadata field must be an object"
    else .ok ()
  | none => .ok ()

/-- Validate notebook structure (utils.ts `validateNotebook`), the checks in
source order. -/
def validateNotebook (j : Json) : Except String Unit := do
  checkIsObject j
  checkNbformat j
  checkCells j
  checkMetadataField j

/-- Non-throwing boolean validity check (utils.ts `isValidNotebook`): run
the validator, `true` on success, `false` when it throws. -/
def isValidNotebook (j : Json) : Bool :=
  match validateNotebook j with
  | .ok _ => true
  | .error _ => false

/-! ## Interactive table (InteractiveTable component)

The sort state, the header-click transition, the row comparator and the
pagination of the interactive table renderer.  Two JavaScript builtins are
modelled explicitly: `parseFloat` as a longest-valid-prefix decimal parser
into `Option Rat` (absent result standing for NaN), and the default-locale
`localeCompare` as code-point lexicographic comparison, which agrees with it
on the ASCII digits and letters the claims exercise.  `Array.prototype.sort`
with a consistent comparator is modelled as a stable insertion sort. -/

/-- Sort direction (`"asc" | "desc"`; the `null` state is the `Option`). -/
inductive SortDir where
  | asc
  | desc
deriving DecidableEq, Repr

/-- Sort and pagination state of the table component. -/
structure TableState where
  sortColumn : Option Nat
  sortDirection : Option SortDir
  currentPage : Nat
deriving DecidableEq, Repr

/-- Initial component state. -/
def initialTableState : TableState :=
  { sortColumn := none, sortDirection := none, currentPage := 0 }

/-- Header-click transition (`handleHeaderClick`): on the sorted column,
ascending becomes descending and descending clears both; on any other
column, select it ascending.  Every path resets the page to 0. -/
def handleHeaderClick (columnIndex : Nat) (st : TableState) : TableState :=
  if st.sortColumn = some columnIndex then
    match st.sortDirection with
    | some .asc => { st with sortDirection := some .desc, currentPage := 0 }
    | some .desc => { sortColumn := none, sortDirection := none, currentPage := 0 }
    | none => { st with currentPage := 0 }
  else
    { sortColumn := some columnIndex, sortDirection := some .asc, currentPage := 0 }

/-- Decimal digit test. -/
def isDigitChar (c : Char) : Bool :=
  '0' ≤ c && c ≤ '9'

/-- Numeric value of a decimal digit run. -/
def digitsToNat (l : List Char) : Nat :=
  l.foldl (fun acc c => acc * 10 + digitVal c) 0

/-- Exact decimal value: an integer mantissa over a power-of-ten
denominator.  This represents the real number a JavaScript float literal
denotes without the rational normalization that blocks kernel evaluation;
`jsParseFloat` only ever produces positive denominators. -/
structure JsNum where
  num : Int
  den : Nat
deriving DecidableEq, Repr

/-- Numeric strict order of exact decimals by cross multiplication. -/
def JsNum.ltb (a b : JsNum) : Bool :=
  a.num * (b.den : Int) < b.num * (a.den : Int)

/-- Numeric non-strict order of exact decimals by cross multiplication. -/
def JsNum.le (a b : JsNum) : Prop :=
  a.num * (b.den : Int) ≤ b.num * (a.den : Int)

/-- The rational value an exact decimal denotes. -/
def JsNum.toRat (a : JsNum) : Rat :=
  (a.num : Rat) / (a.den : Rat)

/-- Model of `parseFloat`: skip leading whitespace, an optional sign, then
the longest prefix of the forms `digits`, `digits.digits`, `.digits`, with
an optional `e`/`E` exponent; trailing junk is ignored and `none` stands for
NaN (no parsable prefix). -/
def jsParseFloat (s : String) : Option JsNum :=
  let cs := s.data.dropWhile isWs
  let signAndRest : Int × List Char := match cs with
    | '-' :: r => (-1, r)
    | '+' :: r => (1, r)
    | r => (1, r)
  let ip := signAndRest.2.takeWhile isDigitChar
  let afterInt := signAndRest.2.dropWhile isDigitChar
  let fracAndRest : List Char × List Char := match afterInt with
    | '.' :: r => (r.takeWhile isDigitChar, r.dropWhile isDigitChar)
    | r => ([], r)
  if ip.isEmpty && fracAndRest.1.isEmpty then none
  else
    let mantNum : Int := signAndRest.1 *
      ((digitsToNat ip * 10 ^ fracAndRest.1.length + digitsToNat fracAndRest.1 : Nat) : Int)
    let mantDen : Nat := 10 ^ fracAndRest.1.length
    let expDigits : Option (Int × List Char) := match fracAndRest.2 with
      | 'e' :: '-' :: r => some (-1, r.takeWhile isDigitChar)
      | 'e' :: '+' :: r => some (1, r.takeWhile isDigitChar)
      | 'e' :: r => some (1, r.takeWhile isDigitChar)
      | 'E' :: '-' :: r => some (-1, r.takeWhile isDigitChar)
      | 'E' :: '+' :: r => some (1, r.takeWhile isDigitChar)
      | 'E' :: r => some (1, r.takeWhile isDigitChar)
      | _ => none
    some (match expDigits with
      | some (esign, ds) =>
        if ds.isEmpty then { num := mantNum, den := mantDen }
        else if esign ≥ 0 then
          { num := mantNum * (10 : Int) ^ digitsToNat ds, den := mantDen }
        else { num := mantNum, den := mantDen * 10 ^ digitsToNat ds }
      | none => { num := mantNum, den := mantDen })

/-- Code-point lexicographic three-way comparison, the model of the
default-locale `localeCompare` on the ASCII data the table meets. -/
def strLexCmp : List Char → List Char → Int
  | [], [] => 0
  | [], _ :: _ => -1
  | _ :: _, [] => 1
  | a :: as, b :: bs =>
    if a < b then -1
    else if b < a then 1
    else strLexCmp as bs

/-- The comparator body of the table sort: numeric difference when both
values parse as floats, string comparison otherwise, negated for descending
order.  Only the sign matters, so the numeric branch returns the sign of
the difference. -/
def cellCompare (dir : SortDir) (aVal bVal : String) : Int :=
  match jsParseFloat aVal, jsParseFloat bVal with
  | some aNum, some bNum =>
    match dir with
    | .asc => if aNum.ltb bNum then -1 else if bNum.ltb aNum then 1 else 0
    | .desc => if bNum.ltb aNum then -1 else if aNum.ltb bNum then 1 else 0
  | _, _ =>
    match dir with
    | .asc => strLexCmp aVal.data bVal.data
    | .desc => -strLexCmp aVal.data bVal.data

/-- Row ordering derived from the comparator on the sort column
(`a[sortColumn] || ""` reads the empty string past the row end). -/
def rowLe (col : Nat) (dir : SortDir) (ra rb : List String) : Bool :=
  cellCompare dir (ra.getD col "") (rb.getD col "") ≤ 0

/-- Insert into a sorted list, before the first element not strictly below,
so that the sort is stable. -/
def insertSorted (le : List String → List String → Bool) (x : List String) :
    List (List String) → List (List String)
  | [] => [x]
  | y :: ys => if le x y then x :: y :: ys else y :: insertSorted le x ys

/-- Stable sort, the model of `[...rows].sort(comparator)` for a consistent
comparator. -/
def stableSort (le : List String → List String → Bool) :
    List (List String) → List (List String)
  | [] => []
  | x :: xs => insertSorted le x (stableSort le xs)

/-- The `sortedRows` memo: the rows unchanged without a full sort selection,
otherwise sorted by the comparator on the selected column. -/
def sortedRows (rows : List (List String)) (st : TableState) : List (List String) :=
  match st.sortColumn, st.sortDirection with
  | some col, some dir => stableSort (rowLe col dir) rows
  | _, _ => rows

/-- Page size (`rowsPerPage = 10`). -/
def rowsPerPage : Nat := 10

/-- Pagination applies only when the row count exceeds the page size. -/
def needsPagination (rows : List (List String)) : Bool :=
  rows.length > rowsPerPage

/-- The `paginatedRows` memo: all rows when pagination is off, otherwise the
slice `[page*10, page*10+10)`. -/
def paginatedRows (rows : List (List String)) (page : Nat) : List (List String) :=
  if !needsPagination rows then rows
  else (rows.drop (page * rowsPerPage)).take rowsPerPage

/-! ## Claims -/

/-- C6: extracting the cell source returns a single-string source unchanged
and concatenates an array source in order; `"abc"` and `["a","b","c"]`
normalize to the identical string. -/
theorem c6_cell_source_normalization :
    (∀ (c : NotebookCell) (s : String), c.source = CellSource.str s → getCellSource c = s) ∧
    (∀ (c : NotebookCell) (l : List String), c.source = CellSource.arr l →
      getCellSource c = String.join l) ∧
    getCellSource { cell_type := CellType.code, source := CellSource.str "abc" } =
      getCellSource { cell_type := CellType.code, source := CellSource.arr ["a", "b", "c"] } := by
  refine ⟨?_, ?_, rfl⟩
  · intro c s h
    simp [getCellSource, h]
  · intro c l h
    simp [getCellSource, h]

/-- Witness for C6 at a concrete cell. -/
theorem c6_cell_source_normalization_witness :
    getCellSource { cell_type := CellType.markdown, source := CellSource.str "hello" } = "hello" :=
  c6_cell_source_normalization.1 _ "hello" rfl

/-- C1: initial code visibility is decided by the five rules in strict
order, first match winning: cell `echo === false` hides, `code-fold`
equal to `hide` hides, `code-fold` equal to `show` or `true` shows, global
`echo === false` hides, otherwise visible; in particular cell `echo:false`
beats global `echo:true`, absent cell options defer to global `echo:false`,
and with neither option the code is visible. -/
theorem c1_initial_code_visibility :
    (∀ (co : QuartoCellOptions) (go : GlobalOptions),
      (co.echo = some (EchoOpt.ofBool false) →
        determineInitialCodeVisibility co go = false) ∧
      (co.echo ≠ some (EchoOpt.ofBool false) → co.codeFold = some CodeFold.foldHide →
        determineInitialCodeVisibility co go = false) ∧
      (co.echo ≠ some (EchoOpt.ofBool false) →
        (co.codeFold = some CodeFold.foldShow ∨ co.codeFold = some (CodeFold.foldBool true)) →
        determineInitialCodeVisibility co go = true) ∧
      (co.echo ≠ some (EchoOpt.ofBool false) → co.codeFold ≠ some CodeFold.foldHide →
        co.codeFold ≠ some CodeFold.foldShow → co.codeFold ≠ some (CodeFold.foldBool true) →
        go.echo = some false → determineInitialCodeVisibility co go = false) ∧
      (co.echo ≠ some (EchoOpt.ofBool false) → co.codeFold ≠ some CodeFold.foldHide →
        co.codeFold ≠ some CodeFold.foldShow → co.codeFold ≠ some (CodeFold.foldBool true) →
        go.echo ≠ some false → determineInitialCodeVisibility co go = true)) ∧
    determineInitialCodeVisibility { echo := some (EchoOpt.ofBool false) }
      { echo := some true } = false ∧
    determineInitialCodeVisibility {} { echo := some false } = false ∧
    determineInitialCodeVisibility {} {} = true := by
  refine ⟨?_, rfl, rfl, rfl⟩
  intro co go
  refine ⟨?_, ?_, ?_, ?_, ?_⟩ <;>
    · intros
      unfold determineInitialCodeVisibility
      split_ifs <;> simp_all

/-- Witness for C1: cell `echo:false` with global `echo:true` resolves to
hidden. -/
theorem c1_initial_code_visibility_witness :
    determineInitialCodeVisibility { echo := some (EchoOpt.ofBool false) }
      { echo := some true } = false :=
  (c1_initial_code_visibility.1 _ _).1 rfl

/-- C4: with the warning cascade resolved to false every `stderr` stream is
dropped while every `stdout` stream is retained, and with the error cascade
resolved to false every `error` output is dropped. -/
theorem c4_output_filtering :
    ∀ (co : QuartoCellOptions) (go : GlobalOptions) (outs : List CellOutput),
      (resolveCascade co.warning go.warning true = false →
        (∀ o ∈ filterOutputs co go outs, isStderrStream o = false) ∧
        (∀ o ∈ outs, isStdoutStream o = true → o ∈ filterOutputs co go outs)) ∧
      (resolveCascade co.error go.error true = false →
        ∀ o ∈ filterOutputs co go outs, isErrorType o = false) := by
  intro co go outs
  constructor
  · intro hw
    constructor
    · intro o ho
      have := (List.mem_filter.1 ho).2
      simp only [filterOutputs, hw] at this
      by_contra hs
      simp [hs] at this
    · intro o ho hstdout
      refine List.mem_filter.2 ⟨ho, ?_⟩
      have h1 : isStderrStream o = false := by
        cases o <;> simp_all [isStdoutStream, isStderrStream]
      have h2 : isErrorType o = false := by
        cases o <;> simp_all [isStdoutStream, isErrorType]
      simp [filterOutputs, h1, h2]
  · intro he o ho
    have := (List.mem_filter.1 ho).2
    simp only [filterOutputs, he] at this
    by_contra hs
    simp [hs] at this

/-- Witness for C4 at a concrete output list. -/
theorem c4_output_filtering_witness :
    (∀ o ∈ filterOutputs { warning := some false } {}
        [CellOutput.stream "stderr" (.str "warn"), CellOutput.stream "stdout" (.str "hi")],
      isStderrStream o = false) ∧
    CellOutput.stream "stdout" (.str "hi") ∈
      filterOutputs { warning := some false } {}
        [CellOutput.stream "stderr" (.str "warn"), CellOutput.stream "stdout" (.str "hi")] := by
  have h := c4_output_filtering { warning := some false } {}
    [CellOutput.stream "stderr" (.str "warn"), CellOutput.stream "stdout" (.str "hi")]
  exact ⟨(h.1 rfl).1, (h.1 rfl).2 _ (by simp) rfl⟩

/-- C10: the boolean notebook check accepts a value exactly when the
asserting validator succeeds on it. -/
theorem c10_guard_refines_validator :
    ∀ j : Json, isValidNotebook j = true ↔ validateNotebook j = .ok () := by
  intro j
  unfold isValidNotebook
  cases h : validateNotebook j with
  | ok u => cases u; simp
  | error e => simp

theorem takeWhile_append_of_all {p : Char → Bool} {l1 l2 : List Char}
    (h : ∀ c ∈ l1, p c = true) : (l1 ++ l2).takeWhile p = l1 ++ l2.takeWhile p := by
  induction l1 with
  | nil => simp
  | cons c cs ih =>
    simp only [List.cons_append, List.takeWhile_cons, h c (by simp), if_true]
    rw [ih fun x hx => h x (by simp [hx])]

theorem synthId_data (ts : String) (i : Nat) :
    ("cell-" ++ ts ++ "-" ++ Nat.repr i).data
      = ("cell-".data ++ ts.data) ++ '-' :: natDigits i := by
  have hdash : ("-" : String).data = ['-'] := rfl
  rw [natRepr_eq_natDigits]
  simp [List.asString, hdash]

theorem digitSuffix_synthId (ts : String) (i : Nat) :
    ("cell-" ++ ts ++ "-" ++ Nat.repr i).data.reverse.takeWhile Char.isDigit
      = (natDigits i).reverse := by
  rw [synthId_data]
  rw [List.reverse_append]
  rw [List.reverse_cons, List.append_assoc]
  rw [takeWhile_append_of_all fun c hc => natDigits_all_digits i c (List.mem_reverse.1 hc)]
  have : (['-'] ++ ("cell-".data ++ ts.data).reverse).takeWhile Char.isDigit = [] := by
    simp [List.takeWhile_cons]
  rw [this, List.append_nil]

theorem synthId_index_inj (ts1 ts2 : String) {i j : Nat}
    (h : "cell-" ++ ts1 ++ "-" ++ Nat.repr i = "cell-" ++ ts2 ++ "-" ++ Nat.repr j) :
    i = j := by
  have h2 : ("cell-" ++ ts1 ++ "-" ++ Nat.repr i).data.reverse.takeWhile Char.isDigit
      = ("cell-" ++ ts2 ++ "-" ++ Nat.repr j).data.reverse.takeWhile Char.isDigit := by
    rw [h]
  rw [digitSuffix_synthId, digitSuffix_synthId] at h2
  exact natDigits_injective (List.reverse_injective h2)

/-- C8 counterexample: an explicit empty-string id is present but, being
falsy, the code synthesizes an id instead of returning it. -/
theorem c8_counterexample :
    ({ cell_type := CellType.code, source := CellSource.str "x", id := some "" } :
        NotebookCell).id = some "" ∧
    generateCellId
        { cell_type := CellType.code, source := CellSource.str "x", id := some "" } 0
      = "cell-code-0" ∧
    ("cell-code-0" : String) ≠ "" := by
  exact ⟨rfl, rfl, by decide⟩

/-- C8 (amended): the cell id equals a present non-empty explicit id; it is
derived only from the cell type and the index otherwise, so it ignores the
source entirely, and synthesized ids of id-less cells at distinct positions
always differ. -/
theorem c8_cell_id_stability :
    (∀ (c : NotebookCell) (i : Nat) (s : String), c.id = some s → s ≠ "" →
      generateCellId c i = s) ∧
    (∀ (c : NotebookCell) (i : Nat) (src : CellSource),
      generateCellId { c with source := src } i = generateCellId c i) ∧
    (∀ (c1 c2 : NotebookCell) (i j : Nat), c1.id = none → c2.id = none → i ≠ j →
      generateCellId c1 i ≠ generateCellId c2 j) := by
  refine ⟨?_, ?_, ?_⟩
  · intro c i s h hne
    simp [generateCellId, h, hne]
  · intro c i src
    simp [generateCellId]
  · intro c1 c2 i j h1 h2 hij heq
    rw [generateCellId, h1] at heq
    rw [generateCellId, h2] at heq
    exact hij (synthId_index_inj _ _ heq)

/-- Witness for C8 at a concrete cell with an explicit id. -/
theorem c8_cell_id_stability_witness :
    generateCellId
        { cell_type := CellType.code, source := CellSource.str "x", id := some "abc" } 5
      = "abc" :=
  c8_cell_id_stability.1 _ 5 "abc" rfl (by decide)

theorem jGet_some_obj {j : Json} {k : String} {v : Json} (h : jGet j k = some v) :
    ∃ fields, j = Json.obj fields := by
  cases j <;> simp [jGet] at h ⊢

theorem validateNotebook_nbformat_low {j : Json} {q : Rat}
    (h : jGet j "nbformat" = some (Json.num q)) (hq : q < 4) :
    validateNotebook j =
      .error ("Notebook nbformat must be 4 or greater, got " ++ jsNumToString q) := by
  obtain ⟨fields, rfl⟩ := jGet_some_obj h
  have hobj : checkIsObject (Json.obj fields) = .ok () := rfl
  have hnb : checkNbformat (Json.obj fields) =
      .error ("Notebook nbformat must be 4 or greater, got " ++ jsNumToString q) := by
    simp [checkNbformat, h, hq]
  simp [validateNotebook, hobj, hnb, bind, Except.bind]

/-- C7: a parsed-JSON object whose `nbformat` is a number below 4 makes the
validator fail with a message containing "nbformat must be 4 or greater",
such a value is never accepted as valid, and a numeric `nbformat` of at
least 4 passes the nbformat check. -/
theorem c7_nbformat_validation :
    (∀ (j : Json) (q : Rat), jGet j "nbformat" = some (Json.num q) → q < 4 →
      validateNotebook j =
          .error ("Notebook nbformat must be 4 or greater, got " ++ jsNumToString q) ∧
      ∃ pre post, ("Notebook nbformat must be 4 or greater, got " ++ jsNumToString q)
          = pre ++ "nbformat must be 4 or greater" ++ post) ∧
    (∀ (j : Json) (q : Rat), jGet j "nbformat" = some (Json.num q) → q < 4 →
      validateNotebook j ≠ .ok ()) ∧
    (∀ (j : Json) (q : Rat), jGet j "nbformat" = some (Json.num q) → ¬ q < 4 →
      checkNbformat j = .ok ()) := by
  refine ⟨?_, ?_, ?_⟩
  · intro j q h hq
    refine ⟨validateNotebook_nbformat_low h hq, "Notebook ", ", got " ++ jsNumToString q, ?_⟩
    have hconst : ("Notebook nbformat must be 4 or greater, got " : String)
        = ("Notebook " ++ "nbformat must be 4 or greater") ++ ", got " := rfl
    rw [hconst]
    exact String.append_assoc _ _ _
  · intro j q h hq
    rw [validateNotebook_nbformat_low h hq]
    simp
  · intro j q h hq
    simp [checkNbformat, h, hq]

/-- Witness for C7 at a concrete notebook value with nbformat 3. -/
theorem c7_nbformat_validation_witness :
    validateNotebook (Json.obj [("nbformat", Json.num 3)]) ≠ .ok () :=
  c7_nbformat_validation.2.1 _ 3 rfl (by norm_num)

theorem parseQFM_source_eq (cell : NotebookCell) :
    (match cell.source with
      | .arr l => String.join l
      | .str s => s) = getCellSource cell := by
  cases h : cell.source <;> simp [getCellSource, h]

theorem parseQFM_none_of_noFM {mf : String → Except Unit YamlData} {cell : NotebookCell}
    (h : startsWithFM (getCellSource cell) = false) :
    parseQuartoFrontmatter mf cell = none := by
  unfold parseQuartoFrontmatter
  simp only [parseQFM_source_eq, h]
  split <;> simp

theorem parseQFM_none_of_throw {mf : String → Except Unit YamlData} {cell : NotebookCell}
    (h : mf (getCellSource cell) = .error ()) :
    parseQuartoFrontmatter mf cell = none := by
  unfold parseQuartoFrontmatter
  simp only [parseQFM_source_eq, h]
  split
  · rfl
  · split <;> rfl

/-- C5: a notebook without front matter in its first cell, and likewise a
notebook whose front matter makes the YAML parser throw, yields the full
default metadata; with slug "my-cool-post" the default title is
"My Cool Post", the description is empty, categories is empty, featured is
false, and the documented format and execute defaults are returned. -/
theorem c5_metadata_defaults :
    (∀ (mf : String → Except Unit YamlData) (nb : Notebook) (slug today : String),
      (∀ c, nb.cells.head? = some c → startsWithFM (getCellSource c) = false) →
      extractMetadata mf nb slug today = getDefaultMetadata slug today) ∧
    (∀ (mf : String → Except Unit YamlData) (nb : Notebook) (slug today : String)
        (c : NotebookCell),
      nb.cells.head? = some c → mf (getCellSource c) = .error () →
      extractMetadata mf nb slug today = getDefaultMetadata slug today) ∧
    (∀ today : String, getDefaultMetadata "my-cool-post" today =
      { title := "My Cool Post", author := none, date := today, description := "",
        categories := [], featured := false,
        format :=
          { codeFold := some (.foldBool false), codeTools := some false,
            codeLineNumbers := some false, toc := some true, tocDepth := some 3,
            tocTitle := some "Contents" },
        execute :=
          { echo := some true, warning := some true, error := some true,
            output := some true, incl := some true } }) := by
  refine ⟨?_, ?_, fun today => rfl⟩
  · intro mf nb slug today h
    unfold extractMetadata
    cases hhd : nb.cells.head? with
    | none => rfl
    | some c => simp only [parseQFM_none_of_noFM (h c hhd), ite_self]
  · intro mf nb slug today c hhd h
    unfold extractMetadata
    rw [hhd]
    simp only [parseQFM_none_of_throw h, ite_self]

/-- Witness for C5: a malformed front-matter block (the parser throws)
falls back to the full defaults. -/
theorem c5_metadata_defaults_witness :
    extractMetadata (fun _ => .error ())
        { cells := [{ cell_type := CellType.raw, source := CellSource.str "---\nbad: [" }] }
        "my-cool-post" "2026-01-01"
      = getDefaultMetadata "my-cool-post" "2026-01-01" :=
  c5_metadata_defaults.2.1 (fun _ => .error ()) _ "my-cool-post" "2026-01-01" _ rfl rfl

/-- A display output carrying the single html fragment `s`. -/
def htmlOnly (s : String) : CellOutput :=
  .displayData (some { textHtml := some (.arr [s]) })

/-- No two adjacent outputs of the list are both html outputs. -/
def noAdjacentHtml : List CellOutput → Prop
  | [] => True
  | [_] => True
  | a :: b :: rest =>
    ¬(isHtmlOutput a = true ∧ isHtmlOutput b = true) ∧ noAdjacentHtml (b :: rest)

/-- C2 counterexample: with three consecutive html outputs the greedy pass
merges only the first two; the adjacent pair (second, third) is not replaced
by a merged output, so no output carries the concatenation of their
payloads. -/
theorem c2_counterexample :
    isHtmlOutput (htmlOnly "b") = true ∧ isHtmlOutput (htmlOnly "c") = true ∧
    mergeHtmlOutputs [htmlOnly "a", htmlOnly "b", htmlOnly "c"]
      = [CellOutput.displayData (some { textHtml := some (.arr ["a", "b"]) }), htmlOnly "c"] ∧
    (mergeHtmlOutputs [htmlOnly "a", htmlOnly "b", htmlOnly "c"]).map htmlOf
      = [some (.arr ["a", "b"]), some (.arr ["c"])] := by
  decide

/-- C2 (amended): the router merges adjacent html pairs in one greedy
left-to-right pass: a pair at the scan position is replaced by exactly one
merged output whose payload is the concatenation of the two payloads in
order and the scan resumes after the pair; a list without adjacent html
pairs, in particular one where the html outputs are pairwise non-adjacent,
is returned unchanged. -/
theorem c2_merge_adjacent_html :
    (∀ (o1 o2 : CellOutput) (rest : List CellOutput),
      isHtmlOutput o1 = true → isHtmlOutput o2 = true →
      mergeHtmlOutputs (o1 :: o2 :: rest) = mergeTwo o1 o2 :: mergeHtmlOutputs rest) ∧
    (∀ (o1 o2 : CellOutput) (h1 h2 : JsStrVal), htmlOf o1 = some h1 → htmlOf o2 = some h2 →
      htmlOf (mergeTwo o1 o2) = some (.arr (toHtmlArr h1 ++ toHtmlArr h2))) ∧
    (∀ l : List CellOutput, noAdjacentHtml l → mergeHtmlOutputs l = l) := by
  refine ⟨?_, ?_, ?_⟩
  · intro o1 o2 rest h1 h2
    simp [mergeHtmlOutputs, h1, h2]
  · intro o1 o2 h1 h2 hh1 hh2
    cases o1 with
    | displayData d =>
      cases d with
      | none => simp [htmlOf] at hh1
      | some b => simp_all [mergeTwo, setHtml, htmlOf]
    | executeResult d =>
      cases d with
      | none => simp [htmlOf] at hh1
      | some b => simp_all [mergeTwo, setHtml, htmlOf]
    | stream name text => simp [htmlOf] at hh1
    | errorOutput e v t => simp [htmlOf] at hh1
  · intro l hl
    induction l with
    | nil => rfl
    | cons a tail ih =>
      cases tail with
      | nil => rfl
      | cons b rest =>
        obtain ⟨hab, htail⟩ := hl
        have hcond : (isHtmlOutput a && isHtmlOutput b) = false := by
          cases ha : isHtmlOutput a <;> cases hb : isHtmlOutput b <;> simp_all
        simp only [mergeHtmlOutputs, hcond, Bool.false_eq_true, if_false]
        rw [ih htail]

/-- Witness for C2: an isolated adjacent pair of html outputs becomes
exactly one merged output. -/
theorem c2_merge_adjacent_html_witness :
    mergeHtmlOutputs [htmlOnly "x", htmlOnly "y"]
      = [mergeTwo (htmlOnly "x") (htmlOnly "y")] := by
  have h := c2_merge_adjacent_html.1 (htmlOnly "x") (htmlOnly "y") [] rfl rfl
  simpa using h

/-- Levels strictly increase from every entry to each of its children,
recursively. -/
inductive LevelsNested : TocEntry → Prop where
  | mk (id : String) (lvl : Nat) (text : String) (children : List TocEntry)
      (hlt : ∀ c ∈ children, lvl < c.level)
      (hrec : ∀ c ∈ children, LevelsNested c) :
      LevelsNested (TocEntry.mk id lvl text children)

/-- A collected children list is sound for a parent level: all levels
strictly larger and all entries nested. -/
def childrenOk (lvl : Nat) (cs : List TocEntry) : Prop :=
  (∀ c ∈ cs, lvl < c.level) ∧ ∀ c ∈ cs, LevelsNested c

/-- Every open frame on the stack has sound children. -/
def framesOk (stack : List TocFrame) : Prop :=
  ∀ f ∈ stack, childrenOk f.level f.children

/-- Stack levels strictly decrease from the top (head) downwards. -/
def stackLevelsLt : List TocFrame → Prop
  | [] => True
  | [_] => True
  | f :: g :: rest => g.level < f.level ∧ stackLevelsLt (g :: rest)

/-- Every root entry collected so far is nested. -/
def tocOk (toc : List TocEntry) : Prop :=
  ∀ e ∈ toc, LevelsNested e

/-- Full invariant of the builder state. -/
def stateOk (st : List TocEntry × List TocFrame) : Prop :=
  tocOk st.1 ∧ framesOk st.2 ∧ stackLevelsLt st.2

/-- The stack is empty or its top level is strictly below `lvl`. -/
def topBelow (lvl : Nat) : List TocFrame → Prop
  | [] => True
  | f :: _ => f.level < lvl

theorem level_closeFrame (f : TocFrame) : (closeFrame f).level = f.level := rfl

theorem levelsNested_closeFrame {f : TocFrame} (h : childrenOk f.level f.children) :
    LevelsNested (closeFrame f) :=
  LevelsNested.mk _ _ _ _ h.1 h.2

theorem tocOk_append_close {toc : List TocEntry} {f : TocFrame}
    (htoc : tocOk toc) (hf : childrenOk f.level f.children) :
    tocOk (toc ++ [closeFrame f]) := by
  intro e he
  rcases List.mem_append.1 he with h1 | h2
  · exact htoc e h1
  · simp only [List.mem_singleton] at h2
    subst h2
    exact levelsNested_closeFrame hf

theorem childrenOk_append_close {g f : TocFrame}
    (hg : childrenOk g.level g.children) (hf : childrenOk f.level f.children)
    (hlt : g.level < f.level) :
    childrenOk g.level (g.children ++ [closeFrame f]) := by
  constructor
  · intro c hc
    rcases List.mem_append.1 hc with h1 | h2
    · exact hg.1 c h1
    · simp only [List.mem_singleton] at h2
      subst h2
      exact hlt
  · intro c hc
    rcases List.mem_append.1 hc with h1 | h2
    · exact hg.2 c h1
    · simp only [List.mem_singleton] at h2
      subst h2
      exact levelsNested_closeFrame hf

theorem stackLevelsLt_set_children {g : TocFrame} {cs : List TocEntry}
    {rest : List TocFrame} (h : stackLevelsLt (g :: rest)) :
    stackLevelsLt ({ g with children := cs } :: rest) := by
  cases rest with
  | nil => trivial
  | cons x t => exact h

theorem popWhileAux_ok (lvl : Nat) :
    ∀ (rest : List TocFrame) (toc : List TocEntry) (f : TocFrame),
      tocOk toc → childrenOk f.level f.children → framesOk rest →
      stackLevelsLt (f :: rest) →
      stateOk (popWhileAux lvl toc f rest) ∧
        topBelow lvl (popWhileAux lvl toc f rest).2 := by
  intro rest
  induction rest with
  | nil =>
    intro toc f htoc hf _ _
    unfold popWhileAux
    by_cases h : lvl ≤ f.level
    · simp only [h, if_true]
      refine ⟨⟨tocOk_append_close htoc hf, ?_, trivial⟩, trivial⟩
      intro x hx
      simp at hx
    · simp only [h, if_false]
      exact ⟨⟨htoc, fun x hx => by simpa [List.mem_singleton.1 hx] using hf, trivial⟩,
        Nat.lt_of_not_le h⟩
  | cons g t ih =>
    intro toc f htoc hf hframes hlt
    unfold popWhileAux
    by_cases h : lvl ≤ f.level
    · simp only [h, if_true]
      have hg : childrenOk g.level g.children := hframes g (by simp)
      have hglt : g.level < f.level := hlt.1
      refine ih toc { g with children := g.children ++ [closeFrame f] } htoc ?_ ?_ ?_
      · exact childrenOk_append_close hg hf hglt
      · exact fun x hx => hframes x (by simp [hx])
      · exact stackLevelsLt_set_children hlt.2
    · simp only [h, if_false]
      refine ⟨⟨htoc, ?_, hlt⟩, Nat.lt_of_not_le h⟩
      intro x hx
      rcases List.mem_cons.1 hx with h1 | h2
      · subst h1; exact hf
      · exact hframes x h2

theorem popStack_ok {lvl : Nat} {toc : List TocEntry} {stack : List TocFrame}
    (h : stateOk (toc, stack)) :
    stateOk (popStack lvl toc stack) ∧ topBelow lvl (popStack lvl toc stack).2 := by
  cases stack with
  | nil => exact ⟨h, trivial⟩
  | cons f rest =>
    exact popWhileAux_ok lvl rest toc f h.1 (h.2.1 f (by simp))
      (fun x hx => h.2.1 x (by simp [hx])) h.2.2

theorem tocLineStep_ok (ci : Nat) (st : List TocEntry × List TocFrame)
    (line : List Char) (h : stateOk st) : stateOk (tocLineStep ci st line) := by
  unfold tocLineStep
  cases hp : parseHeading line with
  | none => exact h
  | some p =>
    obtain ⟨lvl, text⟩ := p
    show stateOk ((popStack lvl st.1 st.2).1,
      { id := headingId ci text, level := lvl, text := text, children := [] }
        :: (popStack lvl st.1 st.2).2)
    obtain ⟨hres, htop⟩ := @popStack_ok lvl st.1 st.2 (by cases st; exact h)
    refine ⟨hres.1, ?_, ?_⟩
    · intro x hx
      rcases List.mem_cons.1 hx with h1 | h2
      · subst h1
        exact ⟨fun c hc => by simp at hc, fun c hc => by simp at hc⟩
      · exact hres.2.1 x h2
    · cases hstk : (popStack lvl st.1 st.2).2 with
      | nil => exact trivial
      | cons g t =>
        have h22 := hres.2.2
        rw [hstk] at h22 htop
        exact ⟨htop, h22⟩

theorem foldl_lines_ok (ci : Nat) (lines : List (List Char)) :
    ∀ st, stateOk st → stateOk (lines.foldl (tocLineStep ci) st) := by
  induction lines with
  | nil => exact fun st h => h
  | cons l ls ih => exact fun st h => ih _ (tocLineStep_ok ci st l h)

theorem foldl_cells_ok (cells : List (Nat × NotebookCell)) :
    ∀ st, stateOk st →
      stateOk (cells.foldl
        (fun st p =>
          if p.2.cell_type = CellType.markdown then
            (splitOnChar '\n' (getCellSource p.2).data).foldl (tocLineStep p.1) st
          else st) st) := by
  induction cells with
  | nil => exact fun st h => h
  | cons c cs ih =>
    intro st h
    refine ih _ ?_
    by_cases hmd : c.2.cell_type = CellType.markdown
    · simpa [hmd] using foldl_lines_ok c.1 _ st h
    · simpa [hmd] using h

theorem foldl_cells_skip (cells : List (Nat × NotebookCell))
    (h : ∀ p ∈ cells, p.2.cell_type ≠ CellType.markdown) :
    ∀ st, cells.foldl
        (fun st p =>
          if p.2.cell_type = CellType.markdown then
            (splitOnChar '\n' (getCellSource p.2).data).foldl (tocLineStep p.1) st
          else st) st = st := by
  induction cells with
  | nil => exact fun st => rfl
  | cons c cs ih =>
    intro st
    rw [List.foldl_cons, if_neg (h c (by simp)), ih fun p hp => h p (by simp [hp])]

/-- C3: the table-of-contents builder scans markdown cells for 1 to 6
leading hash characters followed by whitespace and text, pops the stack
while the top level is at least the new level and attaches the entry to the
new top (or as a root); consequently every child level strictly exceeds its
parent level, a notebook without markdown cells yields no entries, and the
markdown `# A`, `## B`, `# C` yields roots A and C with B the sole child of
A. -/
theorem c3_table_of_contents :
    (∀ nb : Notebook, ∀ e ∈ generateTableOfContents nb, LevelsNested e) ∧
    (∀ nb : Notebook, (∀ c ∈ nb.cells, c.cell_type ≠ CellType.markdown) →
      generateTableOfContents nb = []) ∧
    generateTableOfContents
        { cells := [{ cell_type := CellType.markdown, source := CellSource.str "# A\n## B\n# C" }] }
      = [TocEntry.mk "heading-0-a" 1 "A" [TocEntry.mk "heading-0-b" 2 "B" []],
         TocEntry.mk "heading-0-c" 1 "C" []] := by
  have hinit : stateOk ([], []) :=
    ⟨fun e he => by simp at he, fun f hf => by simp at hf, trivial⟩
  refine ⟨?_, ?_, by rfl⟩
  · intro nb e he
    have hst := foldl_cells_ok nb.cells.enum ([], []) hinit
    have hp := (@popStack_ok 0 _ _ hst).1.1
    simp only [generateTableOfContents] at he
    exact hp e he
  · intro nb h
    have hmem : ∀ p ∈ nb.cells.enum, p.2.cell_type ≠ CellType.markdown := by
      intro p hp
      exact h p.2 (List.getElem?_mem (List.mem_enum_iff_getElem?.1 hp))
    unfold generateTableOfContents
    rw [foldl_cells_skip _ hmem]
    rfl

/-- Witness for C3: the A entry of the concrete example is well nested. -/
theorem c3_table_of_contents_witness :
    LevelsNested (TocEntry.mk "heading-0-a" 1 "A" [TocEntry.mk "heading-0-b" 2 "B" []]) := by
  apply c3_table_of_contents.1
    { cells := [{ cell_type := CellType.markdown, source := CellSource.str "# A\n## B\n# C" }] }
  rw [c3_table_of_contents.2.2]
  exact List.mem_cons_self _ _

/-- The sort order the claim wording predicts for a column that does not
consist entirely of numbers: purely lexicographic comparison of the column
values.  Modelled from the claim for comparison with the implementation. -/
def claimLexSortedRows (rows : List (List String)) (col : Nat) (dir : SortDir) :
    List (List String) :=
  stableSort (fun ra rb =>
    (match dir with
      | .asc => strLexCmp (ra.getD col "").data ((rb.getD col "")).data
      | .desc => -strLexCmp (ra.getD col "").data ((rb.getD col "")).data) ≤ 0) rows

/-- C9 counterexample: in the column 9, 10, x not every cell parses as a
number, yet the implementation still compares the pair (9, 10) numerically,
producing 9 before 10; the purely lexicographic order the claim predicts
puts 10 before 9, so the two orders differ. -/
theorem c9_counterexample :
    jsParseFloat "x" = none ∧
    jsParseFloat "9" = some { num := 9, den := 1 } ∧
    jsParseFloat "10" = some { num := 10, den := 1 } ∧
    sortedRows [["9"], ["10"], ["x"]]
        { sortColumn := some 0, sortDirection := some .asc, currentPage := 0 }
      = [["9"], ["10"], ["x"]] ∧
    claimLexSortedRows [["9"], ["10"], ["x"]] 0 .asc = [["10"], ["9"], ["x"]] ∧
    sortedRows [["9"], ["10"], ["x"]]
        { sortColumn := some 0, sortDirection := some .asc, currentPage := 0 }
      ≠ claimLexSortedRows [["9"], ["10"], ["x"]] 0 .asc := by
  decide

/-- C9 (amended): repeated clicks on one column header cycle the sort state
unsorted, ascending, descending, unsorted; the comparator compares a PAIR of
values numerically when both parse as floats and lexicographically when
either fails to parse (per pair, not per column); pagination uses fixed
10-row pages and applies exactly when the row count exceeds 10. -/
theorem c9_table_sort_pagination :
    (∀ c : Nat,
      handleHeaderClick c initialTableState
        = { sortColumn := some c, sortDirection := some .asc, currentPage := 0 } ∧
      handleHeaderClick c (handleHeaderClick c initialTableState)
        = { sortColumn := some c, sortDirection := some .desc, currentPage := 0 } ∧
      handleHeaderClick c (handleHeaderClick c (handleHeaderClick c initialTableState))
        = initialTableState) ∧
    (∀ (dir : SortDir) (a b : String) (x y : JsNum),
      jsParseFloat a = some x → jsParseFloat b = some y →
      (cellCompare dir a b ≤ 0 ↔ match dir with | .asc => x.le y | .desc => y.le x)) ∧
    (∀ (dir : SortDir) (a b : String),
      jsParseFloat a = none ∨ jsParseFloat b = none →
      cellCompare dir a b
        = match dir with
          | .asc => strLexCmp a.data b.data
          | .desc => -strLexCmp a.data b.data) ∧
    (∀ (rows : List (List String)) (page : Nat),
      (needsPagination rows = true ↔ rows.length > 10) ∧
      (needsPagination rows = false → paginatedRows rows page = rows) ∧
      (needsPagination rows = true →
        paginatedRows rows page = (rows.drop (page * 10)).take 10) ∧
      (paginatedRows rows page).length ≤ 10) := by
  refine ⟨?_, ?_, ?_, ?_⟩
  · intro c
    refine ⟨?_, ?_, ?_⟩ <;> simp [handleHeaderClick, initialTableState]
  · intro dir a b x y hx hy
    cases dir with
    | asc =>
      simp only [cellCompare, hx, hy]
      by_cases h : x.num * (y.den : Int) < y.num * (x.den : Int)
      · simp only [JsNum.ltb, JsNum.le, h]
        simp
        omega
      · by_cases h2 : y.num * (x.den : Int) < x.num * (y.den : Int)
        · simp only [JsNum.ltb, JsNum.le, h, h2]
          simp
          omega
        · simp only [JsNum.ltb, JsNum.le, h, h2]
          simp
          omega
    | desc =>
      simp only [cellCompare, hx, hy]
      by_cases h : y.num * (x.den : Int) < x.num * (y.den : Int)
      · simp only [JsNum.ltb, JsNum.le, h]
        simp
        omega
      · by_cases h2 : x.num * (y.den : Int) < y.num * (x.den : Int)
        · simp only [JsNum.ltb, JsNum.le, h, h2]
          simp
          omega
        · simp only [JsNum.ltb, JsNum.le, h, h2]
          simp
          omega
  · intro dir a b h
    rcases h with h | h
    · cases hb : jsParseFloat b <;> simp [cellCompare, h, hb]
    · cases ha : jsParseFloat a <;> simp [cellCompare, h, ha]
  · intro rows page
    refine ⟨?_, ?_, ?_, ?_⟩
    · simp [needsPagination, rowsPerPage]
    · intro h
      simp [paginatedRows, h]
    · intro h
      simp [paginatedRows, h, rowsPerPage]
    · by_cases h : needsPagination rows
      · simp only [paginatedRows, h, Bool.not_true, if_false]
        simp [List.length_take, rowsPerPage]
      · simp only [paginatedRows, h, Bool.not_false, if_true]
        have := h
        simp [needsPagination, rowsPerPage] at this
        omega

theorem jsNum_le_iff_toRat {a b : JsNum} (ha : 0 < a.den) (hb : 0 < b.den) :
    a.le b ↔ a.toRat ≤ b.toRat := by
  unfold JsNum.le JsNum.toRat
  rw [div_le_div_iff₀ (by exact_mod_cast ha) (by exact_mod_cast hb)]
  constructor
  · intro h
    exact_mod_cast h
  · intro h
    exact_mod_cast h

/-- Witness for C9: a concrete numeric pair compares numerically. -/
theorem c9_table_sort_pagination_witness :
    cellCompare SortDir.asc "2" "10" ≤ 0 ↔
      JsNum.le { num := 2, den := 1 } { num := 10, den := 1 } :=
  c9_table_sort_pagination.2.1 .asc "2" "10" _ _ (by decide) (by decide)

end Blog
